import Mathlib

/-!
Shallow embedding of the R3→S4 conversion core of `src/llm.js`
(`callLLM`, `generateSpecification`, `convertCodeToS4`,
`reviewAndCorrectCode`, `llmService`), together with theorems settling the
specification claims about it.

Modelling conventions:
* A JS chat message object is `Message` (role and content strings).
* The outside world of one `fetch` call (network, HTTP status, JSON body)
  is a `FetchOutcome` value; the orchestrator consumes one outcome per
  LLM call from an environment `env : Nat → FetchOutcome`, indexed by the
  position of the call in the run.
* JS exceptions thrown and caught inside `callLLM` are `Except.error`
  values; the `error`/`result` objects returned by `callLLM` are the
  `CallResult` sum.
* The JS value of `needsCorrection` (which is `null`, not `false`, when
  the verdict regex does not match, because of `match && ...`) is `JsVal`.
* The long natural-language prompt templates only interpolate `docs`, the
  phase inputs and `additionalRequirement` into fixed literal prose; no
  claim depends on their wording, so the prompt builders are parameters
  (`Prompts`), one per template of the source, applied to the same
  arguments the source interpolates.
* The regexes `/Needs Correction:\s*(YES|NO)/i` and
  `/```abap\n([\s\S]*?)\n```/` are modelled character by character over
  `List Char`; `\s` and case-insensitivity are modelled over ASCII, which
  covers every string the program itself builds.
-/

namespace LlmJs

/-- A chat message: a role (`"system"`, `"user"`, `"assistant"`) and text
content, as in the JS objects `{role, content}`. -/
structure Message where
  role : String
  content : String
deriving DecidableEq, Repr

/-- The JS value of `needsCorrection` in `reviewAndCorrectCode`:
`match && match[1].toUpperCase() === 'YES'` is `null` when the regex does
not match, and a boolean otherwise. -/
inductive JsVal where
  | jnull
  | jbool (b : Bool)
deriving DecidableEq, Repr

/-- JS truthiness of a `JsVal`, as tested by `if (!needsCorrection)`. -/
def JsVal.truthy : JsVal → Bool
  | JsVal.jnull => false
  | JsVal.jbool b => b

/-- One element of the `choices` array of the parsed 200-response:
its `message` field may be absent (`none`). -/
inductive ChoiceJson where
  | mk (message : Option Message)
deriving DecidableEq

/-- The parsed JSON body `chat` of a 200 response, as far as
`chat?.choices[0].message` inspects it. -/
inductive ChatJson where
  | nullish
  | noChoicesField
  | withChoices (choices : List ChoiceJson)
deriving DecidableEq

/-- An HTTP response: status, status text, body text, and the outcome of
`await response.json()` (`Except.error` = the JSON parse threw). -/
structure HttpResp where
  status : Nat
  statusText : String
  bodyText : String
  jsonParse : Except String ChatJson

/-- The outside world of one `fetch`: either the fetch itself threw
(network failure), or a response arrived. -/
inductive FetchOutcome where
  | fetchThrow (msg : String)
  | got (r : HttpResp)

/-- Evaluation of the JS expression `chat?.choices[0].message`.
`?.` short-circuits the whole chain when `chat` is nullish; when `chat`
is an object the accesses `choices[0]` and `.message` can throw a
TypeError (modelled as `Except.error` with a stand-in message: the exact
V8 wording is environment behaviour, not part of the source). -/
def getAssistantMessage : ChatJson → Except String (Option Message)
  | ChatJson.nullish => Except.ok none
  | ChatJson.noChoicesField =>
      Except.error "TypeError: cannot read 0 of undefined"
  | ChatJson.withChoices [] =>
      Except.error "TypeError: cannot read message of undefined"
  | ChatJson.withChoices (ChoiceJson.mk m :: _) => Except.ok m

/-- The message list after `callLLM`'s copy, conditional `unshift` of the
system message, and `push` of the new user message (lines 18-24 of
`llm.js`), before the length cap. -/
def uncapped (systemMessage userMessage : String) (history : List Message) :
    List Message :=
  (if history.any (fun m => m.role == "system") then history
   else { role := "system", content := systemMessage } :: history)
  ++ [{ role := "user", content := userMessage }]

/-- The outbound message list of `callLLM`, after the cap
`if (length > 20) splice(1, length - 20)` (lines 26-28):
`splice(1, n)` keeps index 0 and the last 19 elements. -/
def buildMessages (systemMessage userMessage : String)
    (history : List Message) : List Message :=
  let h2 := uncapped systemMessage userMessage history
  if h2.length > 20 then h2.take 1 ++ h2.drop (h2.length - 19) else h2

/-- The `{result, history} | {error}` union returned by `callLLM`. -/
inductive CallResult where
  | ok (result : Message) (history : List Message)
  | err (message : String)
deriving DecidableEq

/-- `callLLM` (lines 16-60 of `llm.js`), as a function of the fetch
outcome.  A non-200 status yields the API error carrying status text and
body; a 200 body is parsed and `chat?.choices[0].message` is read — if
the read throws, the `catch` turns it into the network-or-parsing error;
if it yields a message the call succeeds with `currentHistory` (which
does NOT contain the assistant reply); if it yields `undefined` the
empty-or-malformed error is returned. -/
def callLLM (systemMessage userMessage : String) (history : List Message)
    (outcome : FetchOutcome) : CallResult :=
  let currentHistory := buildMessages systemMessage userMessage history
  match outcome with
  | FetchOutcome.fetchThrow m =>
      CallResult.err ("Network or parsing error during LLM call: " ++ m)
  | FetchOutcome.got r =>
      if r.status = 200 then
        match r.jsonParse with
        | Except.error m =>
            CallResult.err ("Network or parsing error during LLM call: " ++ m)
        | Except.ok chat =>
            match getAssistantMessage chat with
            | Except.error m =>
                CallResult.err
                  ("Network or parsing error during LLM call: " ++ m)
            | Except.ok (some assistantMessage) =>
                CallResult.ok assistantMessage currentHistory
            | Except.ok none =>
                CallResult.err ("LLM response was empty or malformed.")
      else
        CallResult.err
          ("LLM API Error: " ++ r.statusText ++ " - " ++ r.bodyText)

/-- A representative successful fetch outcome whose first choice carries
an assistant message with the given content. -/
def okReply (content : String) : FetchOutcome :=
  FetchOutcome.got
    { status := 200, statusText := "OK", bodyText := "",
      jsonParse :=
        Except.ok (ChatJson.withChoices
          [ChoiceJson.mk (some { role := "assistant", content := content })]) }

/-- The fetch outcome is a 200 response whose first choice has a message
with the given content (the general shape of a successful call). -/
def succeedsWith (o : FetchOutcome) (content : String) : Prop :=
  ∃ st b m rest,
    o = FetchOutcome.got
      { status := 200, statusText := st, bodyText := b,
        jsonParse :=
          Except.ok (ChatJson.withChoices (ChoiceJson.mk (some m) :: rest)) }
    ∧ m.content = content

/-! ### The verdict regex `/Needs Correction:\s*(YES|NO)/i` -/

/-- JS `\s`, restricted to its ASCII members. -/
def isJsWs (c : Char) : Bool :=
  c == ' ' || c == '\t' || c == '\n' || c == '\r' || c == '\x0b' || c == '\x0c'

/-- Case-insensitive match of a literal pattern at the front of the text
(ASCII case folding, as `/i` behaves on the letters involved); returns
the remaining text on success. -/
def ciFront : List Char → List Char → Option (List Char)
  | [], s => some s
  | _ :: _, [] => none
  | pc :: ps, c :: cs =>
      if c == pc.toUpper || c == pc.toLower then ciFront ps cs else none

/-- What `\s*` consumes: the maximal whitespace front.  (Backtracking
into `\s*` can never help here because neither YES nor NO starts with a
whitespace character.) -/
def skipWs : List Char → List Char
  | [] => []
  | c :: cs => if isJsWs c then skipWs cs else c :: cs

/-- The literal part of the verdict regex. -/
def verdictLit : List Char := "Needs Correction:".toList

/-- The first alternative of the capture group. -/
def yesLit : List Char := "YES".toList

/-- The second alternative of the capture group. -/
def noLit : List Char := "NO".toList

/-- Attempt of the verdict regex anchored at the current position:
literal, then `\s*`, then the alternation `YES|NO` in order; returns the
captured group text. -/
def verdictAt (s : List Char) : Option (List Char) :=
  match ciFront verdictLit s with
  | none => none
  | some rest =>
      let rest2 := skipWs rest
      match ciFront yesLit rest2 with
      | some _ => some (rest2.take 3)
      | none =>
          match ciFront noLit rest2 with
          | some _ => some (rest2.take 2)
          | none => none

/-- `String.prototype.match` with a non-global regex: the match at the
leftmost position where the whole pattern succeeds; returns group 1. -/
def findVerdict : List Char → Option (List Char)
  | [] => none
  | c :: cs =>
      match verdictAt (c :: cs) with
      | some g => some g
      | none => findVerdict cs

/-- Lines 202-203 of `llm.js`:
`const m = reviewReport.match(/Needs Correction:\s*(YES|NO)/i);
 const needsCorrection = m && m[1].toUpperCase() === 'YES';`
Note the result is the JS value `null` (not `false`) when the regex does
not match. -/
def needsCorrectionOf (reviewReport : String) : JsVal :=
  match findVerdict reviewReport.toList with
  | none => JsVal.jnull
  | some g => JsVal.jbool (g.map Char.toUpper == yesLit)

/-! ### The fence regex `/```abap\n([\s\S]*?)\n```/` -/

/-- The opening fence marker of the extraction regex. -/
def openMarker : List Char := "```abap\n".toList

/-- The closing fence marker of the extraction regex. -/
def closeMarker : List Char := "\n```".toList

/-- Index of the first occurrence of `pat` in the text, if any. -/
def findSub (pat : List Char) : List Char → Option Nat
  | [] => if pat.isPrefixOf ([] : List Char) then some 0 else none
  | c :: t =>
      if pat.isPrefixOf (c :: t) then some 0
      else (findSub pat t).map (fun n => n + 1)

/-- `pat` occurs in `s` at index `i`. -/
def occursAt (pat s : List Char) (i : Nat) : Prop :=
  pat.isPrefixOf (s.drop i) = true

instance occursAtDecidable (pat s : List Char) (i : Nat) :
    Decidable (occursAt pat s i) :=
  inferInstanceAs (Decidable (pat.isPrefixOf (s.drop i) = true))

/-- The code extraction of lines 140-141 and 287-288 of `llm.js`:
`const m = content.match(/```abap\n([\s\S]*?)\n```/);
 return m ? m[1] : content;`
The lazy group makes the match run from the first `"```abap\n"` (that has
any closing `"\n```"` after it) to the first such closing marker; with no
complete fence the whole reply is returned. -/
def extractAbap (content : String) : String :=
  let cs := content.toList
  match findSub openMarker cs with
  | none => content
  | some i =>
      let rest := cs.drop (i + openMarker.length)
      match findSub closeMarker rest with
      | none => content
      | some j => String.mk (rest.take j)

/-! ### Phase functions and orchestrator -/

/-- The prompt builders of the four phases.  Each template of `llm.js`
is fixed literal prose interpolating `docs` (fixed at module load), the
phase inputs and `additionalRequirement`; the wording carries no verified
property, so the builders are parameters applied to exactly the
arguments the source interpolates (system builders to
`additionalRequirement`, user builders to the phase inputs in source
order). -/
structure Prompts where
  specSystem : String → String
  specUser : String → String
  convSystem : String → String
  convUser : String → String → String
  reviewSystem : String → String
  reviewUser : String → String → String → String
  corrSystem : String → String
  corrUser : String → String → String → String → String

/-- `generateSpecification` (lines 68-98): one `callLLM` with no history
argument (so the default `[]`); a `callLLM` error is thrown (modelled as
`Except.error`), otherwise the raw reply content is the specification. -/
def generateSpecification (p : Prompts)
    (r3SourceCode additionalRequirement : String) (o : FetchOutcome) :
    Except String String :=
  match callLLM (p.specSystem additionalRequirement)
      (p.specUser r3SourceCode) [] o with
  | CallResult.err m =>
      Except.error ("Failed to generate specification: " ++ m)
  | CallResult.ok result _ => Except.ok result.content

/-- `convertCodeToS4` (lines 107-142): one `callLLM` with no history; an
error is thrown; otherwise the reply goes through the fence extraction. -/
def convertCodeToS4 (p : Prompts)
    (r3SourceCode s4Specification additionalRequirement : String)
    (o : FetchOutcome) : Except String String :=
  match callLLM (p.convSystem additionalRequirement)
      (p.convUser s4Specification r3SourceCode) [] o with
  | CallResult.err m => Except.error ("Failed to convert code: " ++ m)
  | CallResult.ok result _ => Except.ok (extractAbap result.content)

/-- The `{reviewReport, needsCorrection}` pair returned by
`reviewAndCorrectCode`. -/
structure ReviewResult where
  reviewReport : String
  needsCorrection : JsVal
deriving DecidableEq, Repr

/-- `reviewAndCorrectCode` (lines 152-206): one `callLLM` with no
history; an error is thrown; otherwise the raw reply is the review
report and the verdict is parsed from it. -/
def reviewAndCorrectCode (p : Prompts)
    (s4GeneratedCode s4Specification r3SourceCode additionalRequirement :
      String) (o : FetchOutcome) : Except String ReviewResult :=
  match callLLM (p.reviewSystem additionalRequirement)
      (p.reviewUser r3SourceCode s4GeneratedCode s4Specification) [] o with
  | CallResult.err m => Except.error ("Failed to review code: " ++ m)
  | CallResult.ok result _ =>
      Except.ok
        { reviewReport := result.content,
          needsCorrection := needsCorrectionOf result.content }

/-- Instrumentation: one record per attempted LLM call of a run — the
phase that made it and the outbound message list it transmitted. -/
structure CallRecord where
  phase : String
  messages : List Message
deriving DecidableEq, Repr

/-- The `{finalS4Code, finalReviewReport, specification, warning?}`
result payload of `llmService`. -/
structure ServiceSuccess where
  finalS4Code : String
  finalReviewReport : String
  specification : String
  warning : Option String
deriving DecidableEq, Repr

/-- The terminal value of `llmService`: `{result, history}` or
`{error, history}`. -/
inductive ServiceResult where
  | ok (result : ServiceSuccess) (history : List Message)
  | err (message : String) (history : List Message)
deriving DecidableEq, Repr

/-- The history component of either terminal value. -/
def ServiceResult.histOf : ServiceResult → List Message
  | ServiceResult.ok _ h => h
  | ServiceResult.err _ h => h

/-- The outer `catch` of `llmService` (lines 308-312): push the error
entry onto the history accumulated so far and return the structured
error. -/
def errorReturn (m : String) (hist : List Message) : ServiceResult :=
  ServiceResult.err ("R3 to S4 conversion workflow failed: " ++ m)
    (hist ++ [{ role := "assistant",
                content := "Error during conversion: " ++ m }])

/-- `MAX_REVIEW_ITERATIONS` (line 234). -/
def MAX_REVIEW_ITERATIONS : Nat := 3

/-- The history entry pushed after the Specification phase (line 224). -/
def specEntry (specification : String) : Message :=
  ⟨"assistant", "**Generated S4 Specification:**\n" ++ specification⟩

/-- The history entry pushed after the Conversion phase (line 229). -/
def convEntry (s4Code : String) : Message :=
  ⟨"assistant", "**Initial S4 Code Conversion:**\n```abap\n" ++ s4Code
    ++ "\n```"⟩

/-- The history entry pushed after each Review call (line 239). -/
def reviewEntry (reviewIteration : Nat) (reviewReport : String) : Message :=
  ⟨"assistant", "**Code Review Report (Iteration "
    ++ toString (reviewIteration + 1) ++ "):**\n" ++ reviewReport⟩

/-- The history entry pushed after each Correction call (line 289). -/
def corrEntry (reviewIteration : Nat) (s4Code : String) : Message :=
  ⟨"assistant", "**Corrected S4 Code (Iteration "
    ++ toString (reviewIteration + 1) ++ "):**\n```abap\n" ++ s4Code
    ++ "\n```"⟩

/-- The history entry pushed after the post-loop final Review (line 297). -/
def finalReviewEntry (reviewReport : String) : Message :=
  ⟨"assistant", "**Final Review Report after "
    ++ toString MAX_REVIEW_ITERATIONS ++ " iterations:**\n" ++ reviewReport⟩

/-- The warning attached when the iteration bound is exhausted (line 303). -/
def warnMsg : String :=
  "Max review iterations (" ++ toString MAX_REVIEW_ITERATIONS
    ++ ") reached. Manual review recommended."

/-- Trace record of the Specification phase call. -/
def specRec (p : Prompts) (ar r3 : String) : CallRecord :=
  ⟨"specification", buildMessages (p.specSystem ar) (p.specUser r3) []⟩

/-- Trace record of the Conversion phase call. -/
def convRec (p : Prompts) (ar sp r3 : String) : CallRecord :=
  ⟨"conversion", buildMessages (p.convSystem ar) (p.convUser sp r3) []⟩

/-- Trace record of a Review phase call. -/
def reviewRec (p : Prompts) (ar r3 s4 sp : String) : CallRecord :=
  ⟨"review", buildMessages (p.reviewSystem ar) (p.reviewUser r3 s4 sp) []⟩

/-- Trace record of a Correction call. -/
def corrRec (p : Prompts) (ar r3 sp s4 report : String) : CallRecord :=
  ⟨"correction", buildMessages (p.corrSystem ar)
    (p.corrUser r3 sp s4 report) []⟩

/-- The `while (reviewIteration < MAX_REVIEW_ITERATIONS)` loop of
`llmService` (lines 236-293) followed by the post-loop final review
(lines 295-306).  The first `Nat` is the remaining fuel
`MAX_REVIEW_ITERATIONS - reviewIteration`, the second the current
`reviewIteration`; `k` indexes the next fetch outcome of the
environment.  Thrown phase errors flow to `errorReturn` (the outer
catch). -/
def reviewLoop (p : Prompts) (env : Nat → FetchOutcome)
    (r3SourceCode additionalRequirement specification : String) :
    Nat → Nat → String → Nat → List Message → List CallRecord →
    ServiceResult × List CallRecord
  | 0, _, s4Code, k, hist, trace =>
      let trace := trace ++
        [reviewRec p additionalRequirement r3SourceCode s4Code specification]
      match reviewAndCorrectCode p s4Code specification r3SourceCode
          additionalRequirement (env k) with
      | Except.error m => (errorReturn m hist, trace)
      | Except.ok finalReviewResult =>
          (ServiceResult.ok
            { finalS4Code := s4Code,
              finalReviewReport := finalReviewResult.reviewReport,
              specification := specification,
              warning := some warnMsg }
            (hist ++ [finalReviewEntry finalReviewResult.reviewReport]),
           trace)
  | fuel + 1, reviewIteration, s4Code, k, hist, trace =>
      let trace := trace ++
        [reviewRec p additionalRequirement r3SourceCode s4Code specification]
      match reviewAndCorrectCode p s4Code specification r3SourceCode
          additionalRequirement (env k) with
      | Except.error m => (errorReturn m hist, trace)
      | Except.ok rr =>
          let hist := hist ++ [reviewEntry reviewIteration rr.reviewReport]
          if !rr.needsCorrection.truthy then
            (ServiceResult.ok
              { finalS4Code := s4Code,
                finalReviewReport := rr.reviewReport,
                specification := specification,
                warning := none } hist,
             trace)
          else
            let trace := trace ++
              [corrRec p additionalRequirement r3SourceCode specification
                s4Code rr.reviewReport]
            match callLLM (p.corrSystem additionalRequirement)
                (p.corrUser r3SourceCode specification s4Code
                  rr.reviewReport) [] (env (k + 1)) with
            | CallResult.err m =>
                (errorReturn ("Failed to apply corrections in iteration "
                  ++ toString (reviewIteration + 1) ++ ": " ++ m) hist,
                 trace)
            | CallResult.ok correctedResult _ =>
                let s4Code := extractAbap correctedResult.content
                let hist := hist ++ [corrEntry reviewIteration s4Code]
                reviewLoop p env r3SourceCode additionalRequirement
                  specification fuel (reviewIteration + 1) s4Code (k + 2)
                  hist trace

/-- The initial user entry pushed by `llmService` (line 220). -/
def startMessage (r3SourceCode additionalRequirement : String) : Message :=
  ⟨"user",
    "Please start the R3 to S4 conversion process for the following R3 code:\n```abap\n"
      ++ r3SourceCode ++ "\n```\nAdditional requirements: "
      ++ additionalRequirement⟩

/-- `llmService` (lines 216-313): copy the caller's history, push the
initial user message, run Specification, Conversion and the review loop;
every thrown error is caught and returned via `errorReturn`.  The second
component is the instrumentation trace of attempted LLM calls. -/
def llmService (p : Prompts) (r3SourceCode additionalRequirement : String)
    (history : List Message) (env : Nat → FetchOutcome) :
    ServiceResult × List CallRecord :=
  let currentHistory := history ++
    [startMessage r3SourceCode additionalRequirement]
  let trace : List CallRecord :=
    [specRec p additionalRequirement r3SourceCode]
  match generateSpecification p r3SourceCode additionalRequirement
      (env 0) with
  | Except.error m => (errorReturn m currentHistory, trace)
  | Except.ok specification =>
      let currentHistory := currentHistory ++ [specEntry specification]
      let trace := trace ++
        [convRec p additionalRequirement specification r3SourceCode]
      match convertCodeToS4 p r3SourceCode specification
          additionalRequirement (env 1) with
      | Except.error m => (errorReturn m currentHistory, trace)
      | Except.ok s4Code =>
          let currentHistory := currentHistory ++ [convEntry s4Code]
          reviewLoop p env r3SourceCode additionalRequirement specification
            MAX_REVIEW_ITERATIONS 0 s4Code 2 currentHistory trace

/-! ### Concrete material used by witnesses and counterexamples -/

/-- Trivial prompt builders (every template collapsed to the empty
string); the orchestration properties hold for any `Prompts`. -/
def pTriv : Prompts where
  specSystem := fun _ => ""
  specUser := fun _ => ""
  convSystem := fun _ => ""
  convUser := fun _ _ => ""
  reviewSystem := fun _ => ""
  reviewUser := fun _ _ _ => ""
  corrSystem := fun _ => ""
  corrUser := fun _ _ _ _ => ""

/-- A review reply whose verdict line says YES. -/
def yesReply : String := "Needs Correction: YES"

/-- A review reply whose verdict line says NO. -/
def noReply : String := "Needs Correction: NO"

/-- Environment in which every call succeeds and every review says YES. -/
def envAllYes : Nat → FetchOutcome := fun _ => okReply yesReply

/-- Environment for scenario C: reviews at call indices 2 and 4 say YES,
the review at index 6 says NO, every other call succeeds. -/
def envYYN : Nat → FetchOutcome := fun k =>
  if k = 6 then okReply noReply else okReply yesReply

/-- Environment whose every response is an HTTP 500. -/
def env500 : Nat → FetchOutcome := fun _ =>
  FetchOutcome.got
    { status := 500, statusText := "Internal Server Error",
      bodyText := "boom", jsonParse := Except.ok ChatJson.nullish }

/-- Environment in which every call succeeds and every review says NO. -/
def envNo : Nat → FetchOutcome := fun _ => okReply noReply

/-- A reply that contains the verdict line with NO first and YES later. -/
def noYesReply : String := "Needs Correction: NO\nNeeds Correction: YES"

/-- The empty string (named so literals need not follow names). -/
def emptyS : String := ""

/-- A sample assistant reply content. -/
def helloS : String := "hello"

/-- A 200 response whose body has an empty `choices` array, so that
`chat?.choices[0].message` throws. -/
def emptyChoicesOutcome : FetchOutcome :=
  FetchOutcome.got
    { status := 200, statusText := "OK", bodyText := "",
      jsonParse := Except.ok (ChatJson.withChoices []) }

/-- A 25-message input history: a front system message followed by 24
user messages (long enough to trigger the cap). -/
def hist25 : List Message :=
  ⟨"system", "S0"⟩ :: List.replicate 24 ⟨"user", "m"⟩

/-- Sample text before a fenced block. -/
def preW : List Char := "Reply:\n".toList

/-- Sample inner text of a fenced block. -/
def innerW : List Char := "WRITE 1.".toList

/-- Sample text after a fenced block. -/
def postW : List Char := " done".toList

/-- A sample reply with no fenced block. -/
def rW : List Char := "no fence here".toList

/-- The history entry that `llmService` appends after a successful
Specification phase whose reply was `noReply`. -/
def specEntryNo : Message :=
  ⟨"assistant", "**Generated S4 Specification:**\nNeeds Correction: NO"⟩

/-- `a` occurs somewhere in `s` as a contiguous substring, both read as
character lists. -/
def containsSub (a s : List Char) : Prop := ∃ x y, s = x ++ a ++ y

/-- The decomposition recognised by the verdict regex: somewhere in the
text, a case variant of the literal, then whitespace, then a case variant
of YES or of NO.  `CIList pat m` says `m` matches `pat` letter by letter
up to ASCII case. -/
inductive CIList : List Char → List Char → Prop
  | nil : CIList [] []
  | cons {p c : Char} {ps cs : List Char} :
      (c == p.toUpper || c == p.toLower) = true → CIList ps cs →
      CIList (p :: ps) (c :: cs)

/-- The text contains an occurrence of the verdict pattern. -/
def HasVerdict (s : List Char) : Prop :=
  ∃ a m w v r, s = a ++ m ++ w ++ v ++ r
    ∧ CIList verdictLit m
    ∧ (∀ c ∈ w, isJsWs c = true)
    ∧ (CIList yesLit v ∨ CIList noLit v)

/-! ## Helper lemmas about substring search -/

theorem findSub_occursAt {pat s : List Char} {i : Nat}
    (h : findSub pat s = some i) : occursAt pat s i := by
  induction s generalizing i with
  | nil =>
    unfold findSub at h
    split at h
    · rename_i hp
      cases h
      exact hp
    · cases h
  | cons c t ih =>
    unfold findSub at h
    split at h
    · rename_i hp
      cases h
      exact hp
    · rename_i hp
      cases hft : findSub pat t with
      | none => rw [hft] at h; cases h
      | some n =>
        rw [hft] at h
        simp only [Option.map_some'] at h
        cases h
        exact ih hft

theorem findSub_min {pat s : List Char} {i : Nat}
    (h : findSub pat s = some i) : ∀ k, k < i → ¬ occursAt pat s k := by
  induction s generalizing i with
  | nil =>
    unfold findSub at h
    split at h
    · cases h; omega
    · cases h
  | cons c t ih =>
    unfold findSub at h
    split at h
    · cases h; omega
    · rename_i hp
      cases hft : findSub pat t with
      | none => rw [hft] at h; cases h
      | some n =>
        rw [hft] at h
        simp only [Option.map_some'] at h
        cases h
        intro k hk
        cases k with
        | zero =>
          intro hocc
          exact hp hocc
        | succ j =>
          intro hocc
          exact ih hft j (by omega) hocc

theorem findSub_complete {pat s : List Char} {k : Nat}
    (h : occursAt pat s k) : ∃ i, findSub pat s = some i ∧ i ≤ k := by
  induction s generalizing k with
  | nil =>
    refine ⟨0, ?_, Nat.zero_le k⟩
    unfold findSub
    rw [if_pos (by simpa [occursAt, List.drop_nil] using h)]
  | cons c t ih =>
    by_cases hp : pat.isPrefixOf (c :: t) = true
    · exact ⟨0, by unfold findSub; rw [if_pos hp], Nat.zero_le k⟩
    · cases k with
      | zero => exact absurd h hp
      | succ j =>
        obtain ⟨i, hi, hle⟩ := ih (k := j) h
        refine ⟨i + 1, ?_, by omega⟩
        unfold findSub
        rw [if_neg hp, hi]
        rfl

theorem findSub_first {pat s : List Char} {i : Nat}
    (hocc : occursAt pat s i) (hmin : ∀ k, k < i → ¬ occursAt pat s k) :
    findSub pat s = some i := by
  obtain ⟨j, hj, hle⟩ := findSub_complete hocc
  rcases Nat.lt_or_ge j i with hlt | hge
  · exact absurd (findSub_occursAt hj) (hmin j hlt)
  · have : j = i := Nat.le_antisymm hle hge
    rw [← this]
    exact hj

theorem findSub_none {pat s : List Char} (h : findSub pat s = none) :
    ∀ k, ¬ occursAt pat s k := by
  intro k hk
  obtain ⟨i, hi, _⟩ := findSub_complete hk
  rw [h] at hi
  cases hi

theorem findSub_decomp {pat s : List Char} {i : Nat}
    (h : findSub pat s = some i) :
    s = s.take i ++ pat ++ s.drop (i + pat.length) := by
  have hocc := findSub_occursAt h
  unfold occursAt at hocc
  obtain ⟨r, hr⟩ := List.isPrefixOf_iff_prefix.mp hocc
  have hdd : (s.drop i).drop pat.length = s.drop (i + pat.length) :=
    List.drop_drop pat.length i s
  have hre : r = s.drop (i + pat.length) := by
    rw [← hdd, ← hr, List.drop_left]
  have h2 : pat ++ s.drop (i + pat.length) = s.drop i := by
    rw [← hre]; exact hr
  calc s = s.take i ++ s.drop i := (List.take_append_drop i s).symm
    _ = s.take i ++ (pat ++ s.drop (i + pat.length)) := by rw [h2]
    _ = s.take i ++ pat ++ s.drop (i + pat.length) := by
        rw [List.append_assoc]

/-- With no open-marker occurrence there is no complete fenced block. -/
theorem noOpen_noFence (r : List Char) (h : findSub openMarker r = none) :
    ¬ ∃ a b c, r = a ++ openMarker ++ b ++ closeMarker ++ c := by
  rintro ⟨a, b, c, rfl⟩
  refine findSub_none h a.length ?_
  unfold occursAt
  simp only [List.append_assoc]
  rw [List.drop_left]
  exact List.isPrefixOf_iff_prefix.mpr
    ⟨b ++ (closeMarker ++ c), rfl⟩

/-! ## C5: the fenced-code extraction -/

/-- C5: the extraction shared by the Conversion and Correction phases is
total and deterministic; if the reply contains a fenced
```` ```abap ... ``` ````
block (here: the open marker at its first occurrence, closed at the
first close marker after it), the extraction returns exactly that inner
text, with no fence markers; if the reply contains no complete fenced
block, the whole reply is returned unchanged. -/
theorem claim_C5_extraction (pre inner post r : List Char)
    (h1 : ∀ k, k < pre.length →
      ¬ occursAt openMarker
        (pre ++ openMarker ++ inner ++ closeMarker ++ post) k)
    (h2 : ∀ k, k < inner.length →
      ¬ occursAt closeMarker (inner ++ closeMarker ++ post) k)
    (h3 : ¬ ∃ a b c, r = a ++ openMarker ++ b ++ closeMarker ++ c) :
    extractAbap
        (String.mk (pre ++ openMarker ++ inner ++ closeMarker ++ post)) =
      String.mk inner
    ∧ extractAbap (String.mk r) = String.mk r := by
  constructor
  · have hocc1 : occursAt openMarker
        (pre ++ openMarker ++ inner ++ closeMarker ++ post) pre.length := by
      unfold occursAt
      simp only [List.append_assoc]
      rw [List.drop_left]
      exact List.isPrefixOf_iff_prefix.mpr
        ⟨inner ++ (closeMarker ++ post), rfl⟩
    have e1 : findSub openMarker
        (pre ++ openMarker ++ inner ++ closeMarker ++ post) =
        some pre.length := findSub_first hocc1 h1
    have hocc2 : occursAt closeMarker (inner ++ closeMarker ++ post)
        inner.length := by
      unfold occursAt
      simp only [List.append_assoc]
      rw [List.drop_left]
      exact List.isPrefixOf_iff_prefix.mpr ⟨post, rfl⟩
    have e2 : findSub closeMarker (inner ++ closeMarker ++ post) =
        some inner.length := findSub_first hocc2 h2
    have hdropped : (pre ++ openMarker ++ inner ++ closeMarker ++ post).drop
        (pre.length + openMarker.length) =
        inner ++ closeMarker ++ post := by
      have : pre ++ openMarker ++ inner ++ closeMarker ++ post =
          (pre ++ openMarker) ++ (inner ++ closeMarker ++ post) := by
        simp [List.append_assoc]
      rw [this, ← List.length_append pre openMarker, List.drop_left]
    simp only [extractAbap, String.toList, e1, hdropped, e2]
    rw [List.append_assoc, List.take_left]
  · cases hfo : findSub openMarker r with
    | none => simp [extractAbap, String.toList, hfo]
    | some i =>
      cases hfc : findSub closeMarker (r.drop (i + openMarker.length)) with
      | none => simp [extractAbap, String.toList, hfo, hfc]
      | some j =>
        exfalso
        apply h3
        have hd1 := findSub_decomp hfo
        have hd2 := findSub_decomp hfc
        refine ⟨r.take i, (r.drop (i + openMarker.length)).take j,
          (r.drop (i + openMarker.length)).drop (j + closeMarker.length), ?_⟩
        calc r = r.take i ++ openMarker ++ r.drop (i + openMarker.length) :=
            hd1
          _ = r.take i ++ openMarker ++
              ((r.drop (i + openMarker.length)).take j ++ closeMarker ++
               (r.drop (i + openMarker.length)).drop
                 (j + closeMarker.length)) := by rw [← hd2]
          _ = r.take i ++ openMarker ++
              (r.drop (i + openMarker.length)).take j ++ closeMarker ++
              (r.drop (i + openMarker.length)).drop
                (j + closeMarker.length) := by simp [List.append_assoc]

/-- Witness for C5 at a concrete fenced reply and a concrete fence-free
reply. -/
theorem claim_C5_witness :
    extractAbap
        (String.mk (preW ++ openMarker ++ innerW ++ closeMarker ++ postW)) =
      String.mk innerW
    ∧ extractAbap (String.mk rW) = String.mk rW :=
  claim_C5_extraction preW innerW postW rW (by decide) (by decide)
    (noOpen_noFence rW (by decide))

/-! ## Helper lemmas about the verdict regex -/

theorem ciFront_sound {pat s rest : List Char}
    (h : ciFront pat s = some rest) :
    ∃ m, s = m ++ rest ∧ CIList pat m := by
  induction pat generalizing s with
  | nil =>
    cases h
    exact ⟨[], rfl, CIList.nil⟩
  | cons p ps ih =>
    cases s with
    | nil => cases h
    | cons c cs =>
      unfold ciFront at h
      split at h
      · rename_i hc
        obtain ⟨m, hm, hcl⟩ := ih h
        exact ⟨c :: m, by rw [hm]; rfl, CIList.cons hc hcl⟩
      · cases h

theorem ciFront_complete {pat m : List Char} (h : CIList pat m) :
    ∀ rest, ciFront pat (m ++ rest) = some rest := by
  induction h with
  | nil => intro rest; rfl
  | cons hc _ ih =>
    intro rest
    rw [List.cons_append]
    unfold ciFront
    rw [if_pos hc]
    exact ih rest

theorem ciList_length {pat m : List Char} (h : CIList pat m) :
    m.length = pat.length := by
  induction h with
  | nil => rfl
  | cons _ _ ih => simp [ih]

theorem skipWs_decomp (s : List Char) :
    ∃ w, s = w ++ skipWs s ∧ (∀ c ∈ w, isJsWs c = true) := by
  induction s with
  | nil => exact ⟨[], rfl, by intro c hc; cases hc⟩
  | cons c cs ih =>
    by_cases hc : isJsWs c = true
    · obtain ⟨w, hw, hws⟩ := ih
      refine ⟨c :: w, ?_, ?_⟩
      · unfold skipWs
        rw [if_pos hc, List.cons_append, ← hw]
      · intro x hx
        rcases List.mem_cons.mp hx with rfl | hxw
        · exact hc
        · exact hws x hxw
    · refine ⟨[], ?_, by intro x hx; cases hx⟩
      unfold skipWs
      rw [if_neg hc]
      rfl

theorem skipWs_complete {w : List Char} (hw : ∀ c ∈ w, isJsWs c = true)
    {c0 : Char} (hc0 : isJsWs c0 = false) (r : List Char) :
    skipWs (w ++ c0 :: r) = c0 :: r := by
  induction w with
  | nil =>
    unfold skipWs
    rw [List.nil_append]
    simp [hc0]
  | cons c cs ih =>
    have hcw : isJsWs c = true := hw c (List.mem_cons_self c cs)
    unfold skipWs
    rw [List.cons_append]
    simp only [hcw, if_true]
    exact ih (fun x hx => hw x (List.mem_cons_of_mem c hx))

theorem ciChar_cases {p c : Char}
    (h : (c == p.toUpper || c == p.toLower) = true) :
    c = p.toUpper ∨ c = p.toLower := by
  simpa [Bool.or_eq_true, beq_iff_eq] using h

theorem ciList_yes_upper {g : List Char} (h : CIList yesLit g) :
    g.map Char.toUpper = yesLit := by
  have e : yesLit = 'Y' :: 'E' :: 'S' :: [] := rfl
  rw [e] at h ⊢
  cases h with
  | cons hc1 h1 =>
    cases h1 with
    | cons hc2 h2 =>
      cases h2 with
      | cons hc3 h3 =>
        cases h3
        rcases ciChar_cases hc1 with rfl | rfl <;>
          rcases ciChar_cases hc2 with rfl | rfl <;>
          rcases ciChar_cases hc3 with rfl | rfl <;> decide

theorem ciList_no_upper {g : List Char} (h : CIList noLit g) :
    g.map Char.toUpper = noLit := by
  have e : noLit = 'N' :: 'O' :: [] := rfl
  rw [e] at h ⊢
  cases h with
  | cons hc1 h1 =>
    cases h1 with
    | cons hc2 h2 =>
      cases h2
      rcases ciChar_cases hc1 with rfl | rfl <;>
        rcases ciChar_cases hc2 with rfl | rfl <;> decide

theorem ciList_head_not_ws {pat g : List Char}
    (hpat : pat = yesLit ∨ pat = noLit) (h : CIList pat g) :
    ∃ c cs, g = c :: cs ∧ isJsWs c = false := by
  rcases hpat with rfl | rfl
  · cases h with
    | cons hc1 h1 =>
      rename_i c cs
      refine ⟨c, cs, rfl, ?_⟩
      rcases ciChar_cases hc1 with rfl | rfl <;> decide
  · cases h with
    | cons hc1 h1 =>
      rename_i c cs
      refine ⟨c, cs, rfl, ?_⟩
      rcases ciChar_cases hc1 with rfl | rfl <;> decide

theorem verdictAt_sound {s g : List Char} (h : verdictAt s = some g) :
    ∃ m w r, s = m ++ w ++ g ++ r
      ∧ CIList verdictLit m
      ∧ (∀ c ∈ w, isJsWs c = true)
      ∧ (CIList yesLit g ∨ CIList noLit g) := by
  unfold verdictAt at h
  cases hcf : ciFront verdictLit s with
  | none => rw [hcf] at h; cases h
  | some rest =>
    rw [hcf] at h
    obtain ⟨m, hms, hmci⟩ := ciFront_sound hcf
    obtain ⟨w, hwrest, hws⟩ := skipWs_decomp rest
    simp only at h
    cases hy : ciFront yesLit (skipWs rest) with
    | some r3 =>
      rw [hy] at h
      obtain ⟨m3, hm3, hm3ci⟩ := ciFront_sound hy
      have hlen3 : m3.length = 3 := ciList_length hm3ci
      have htake : (skipWs rest).take 3 = m3 := by
        rw [hm3, ← hlen3, List.take_left]
      cases h
      rw [htake]
      refine ⟨m, w, r3, ?_, hmci, hws, Or.inl hm3ci⟩
      rw [hms, hwrest, hm3]
      simp [List.append_assoc]
    | none =>
      rw [hy] at h
      cases hn : ciFront noLit (skipWs rest) with
      | some r2 =>
        rw [hn] at h
        obtain ⟨m2, hm2, hm2ci⟩ := ciFront_sound hn
        have hlen2 : m2.length = 2 := ciList_length hm2ci
        have htake : (skipWs rest).take 2 = m2 := by
          rw [hm2, ← hlen2, List.take_left]
        cases h
        rw [htake]
        refine ⟨m, w, r2, ?_, hmci, hws, Or.inr hm2ci⟩
        rw [hms, hwrest, hm2]
        simp [List.append_assoc]
      | none => rw [hn] at h; cases h

theorem verdictAt_some {m w v r : List Char} (hm : CIList verdictLit m)
    (hw : ∀ c ∈ w, isJsWs c = true)
    (hv : CIList yesLit v ∨ CIList noLit v) :
    ∃ g, verdictAt (m ++ w ++ v ++ r) = some g := by
  have hassoc : m ++ w ++ v ++ r = m ++ (w ++ (v ++ r)) := by
    simp [List.append_assoc]
  obtain ⟨c, cs, hvhead, hcws⟩ : ∃ c cs, v = c :: cs ∧ isJsWs c = false := by
    rcases hv with h | h
    · exact ciList_head_not_ws (Or.inl rfl) h
    · exact ciList_head_not_ws (Or.inr rfl) h
  have hskip : skipWs (w ++ (v ++ r)) = v ++ r := by
    rw [hvhead, List.cons_append]
    exact skipWs_complete hw hcws (cs ++ r)
  unfold verdictAt
  rw [hassoc, ciFront_complete hm (w ++ (v ++ r))]
  simp only [hskip]
  rcases hv with hy | hn
  · rw [ciFront_complete hy r]
    exact ⟨(v ++ r).take 3, rfl⟩
  · have hyes : ciFront yesLit (v ++ r) = none := by
      cases hn with
      | cons hc1 h1 =>
        rename_i c2 cs2
        have hcond : (c2 == 'Y'.toUpper || c2 == 'Y'.toLower) = false := by
          rcases ciChar_cases hc1 with rfl | rfl <;> decide
        have e : yesLit = 'Y' :: 'E' :: 'S' :: [] := rfl
        rw [List.cons_append, e]
        unfold ciFront
        rw [if_neg (by simp only [hcond]; decide)]
    rw [hyes, ciFront_complete hn r]
    exact ⟨(v ++ r).take 2, rfl⟩

theorem findVerdict_sound {s g : List Char} (h : findVerdict s = some g) :
    ∃ a t, s = a ++ t ∧ verdictAt t = some g := by
  induction s with
  | nil => cases h
  | cons c cs ih =>
    unfold findVerdict at h
    cases hva : verdictAt (c :: cs) with
    | some g0 =>
      rw [hva] at h
      cases h
      exact ⟨[], c :: cs, rfl, hva⟩
    | none =>
      rw [hva] at h
      obtain ⟨a, t, heq, hv⟩ := ih h
      exact ⟨c :: a, t, by rw [heq]; rfl, hv⟩

theorem findVerdict_none {s : List Char} (h : findVerdict s = none) :
    ∀ a t, s = a ++ t → verdictAt t = none := by
  induction s with
  | nil =>
    intro a t heq
    have ha : a = [] ∧ t = [] := by
      constructor
      · cases a with
        | nil => rfl
        | cons x xs => cases heq
      · cases a with
        | nil => exact heq.symm
        | cons x xs => cases heq
    rw [ha.2]
    rfl
  | cons c cs ih =>
    unfold findVerdict at h
    cases hva : verdictAt (c :: cs) with
    | some g0 => rw [hva] at h; cases h
    | none =>
      rw [hva] at h
      intro a t heq
      cases a with
      | nil =>
        rw [List.nil_append] at heq
        rw [← heq]
        exact hva
      | cons a0 as =>
        rw [List.cons_append] at heq
        injection heq with h1 h2
        exact ih h as t h2

theorem hasVerdict_iff_findVerdict (s : List Char) :
    HasVerdict s ↔ ∃ g, findVerdict s = some g := by
  constructor
  · rintro ⟨a, m, w, v, r, heq, hm, hw, hv⟩
    obtain ⟨g, hva⟩ := verdictAt_some hm hw hv (r := r)
    cases hfv : findVerdict s with
    | some g0 => exact ⟨g0, rfl⟩
    | none =>
      exfalso
      have := findVerdict_none hfv a (m ++ w ++ v ++ r)
        (by rw [heq]; simp [List.append_assoc])
      rw [this] at hva
      cases hva
  · rintro ⟨g, hg⟩
    obtain ⟨a, t, heq, hva⟩ := findVerdict_sound hg
    obtain ⟨m, w, r, ht, hm, hw, hv⟩ := verdictAt_sound hva
    exact ⟨a, m, w, g, r, by rw [heq, ht]; simp [List.append_assoc],
      hm, hw, hv⟩

/-! ## C4: the verdict value of reviewAndCorrectCode -/

/-- C4 (amended): the `needsCorrection` value computed by
`reviewAndCorrectCode` is determined by the FIRST occurrence of the
verdict pattern `Needs Correction:` + whitespace + YES/NO (any letter
case): the boolean `true` when that first occurrence captures a case
variant of YES, the boolean `false` when it captures a variant of NO,
and the JS value `null` — falsy, but not the boolean `false` — when the
reply contains no occurrence of the pattern at all. -/
theorem claim_C4_needsCorrection (reply : String) :
    (needsCorrectionOf reply = JsVal.jnull ↔ ¬ HasVerdict reply.toList)
    ∧ (∀ g, findVerdict reply.toList = some g →
        ((CIList yesLit g ∧ needsCorrectionOf reply = JsVal.jbool true)
         ∨ (CIList noLit g ∧ needsCorrectionOf reply = JsVal.jbool false)))
    := by
  constructor
  · constructor
    · intro hnull hv
      obtain ⟨g, hg⟩ := (hasVerdict_iff_findVerdict reply.toList).mp hv
      simp only [needsCorrectionOf, hg] at hnull
      cases hnull
    · intro hnv
      cases hfv : findVerdict reply.toList with
      | none => simp only [needsCorrectionOf, hfv]
      | some g =>
        exact absurd ((hasVerdict_iff_findVerdict reply.toList).mpr
          ⟨g, hfv⟩) hnv
  · intro g hg
    obtain ⟨a, t, heq, hva⟩ := findVerdict_sound hg
    obtain ⟨m, w, r, ht, hm, hw, hv⟩ := verdictAt_sound hva
    rcases hv with hy | hn
    · left
      refine ⟨hy, ?_⟩
      simp only [needsCorrectionOf, hg]
      rw [ciList_yes_upper hy]
      decide
    · right
      refine ⟨hn, ?_⟩
      simp only [needsCorrectionOf, hg]
      rw [ciList_no_upper hn]
      decide

/-- Witness for C4 at a concrete reply with a YES verdict line. -/
theorem claim_C4_witness :
    (CIList yesLit ("YES".toList)
      ∧ needsCorrectionOf yesReply = JsVal.jbool true)
    ∨ (CIList noLit ("YES".toList)
      ∧ needsCorrectionOf yesReply = JsVal.jbool false) :=
  (claim_C4_needsCorrection yesReply).2 ("YES".toList) (by decide)

/-- Counterexample to C4 as stated: a reply that does contain the line
`Needs Correction: YES`, yet `needsCorrection` is not `true`, because an
earlier `Needs Correction: NO` is the first regex match. -/
theorem claim_C4_counterexample :
    containsSub ("Needs Correction: YES".toList) noYesReply.toList
    ∧ needsCorrectionOf noYesReply = JsVal.jbool false
    ∧ needsCorrectionOf noYesReply ≠ JsVal.jbool true := by
  refine ⟨⟨"Needs Correction: NO\n".toList, [], by decide⟩, by decide,
    by decide⟩

/-! ## Helper lemmas about the message-list builder -/

theorem buildMessages_nil (s u : String) :
    buildMessages s u [] = [⟨"system", s⟩, ⟨"user", u⟩] := rfl

theorem uncapped_concat (s u : String) (h : List Message) :
    ∃ y, uncapped s u h = y ++ [(⟨"user", u⟩ : Message)] :=
  ⟨_, rfl⟩

theorem buildMessages_concat (s u : String) (h : List Message) :
    ∃ w, buildMessages s u h = w ++ [(⟨"user", u⟩ : Message)] := by
  obtain ⟨y, hy⟩ := uncapped_concat s u h
  simp only [buildMessages, hy]
  split
  · rename_i hlen
    have hle : (y ++ [(⟨"user", u⟩ : Message)]).length - 19 ≤ y.length := by
      simp only [List.length_append, List.length_cons, List.length_nil]
      omega
    rw [List.drop_append_of_le_length hle]
    exact ⟨(y ++ [(⟨"user", u⟩ : Message)]).take 1 ++
      y.drop ((y ++ [(⟨"user", u⟩ : Message)]).length - 19),
      by rw [List.append_assoc]⟩
  · exact ⟨y, rfl⟩

/-- On any history whose tail holds no system message, the uncapped list
is a system-roled head followed by a system-free tail ending in the new
user message. -/
theorem uncapped_shape (sys user : String) (h : List Message)
    (hsys : (h.drop 1).all (fun m => m.role != "system") = true) :
    ∃ m0 rest, uncapped sys user h = m0 :: rest
      ∧ m0.role = "system"
      ∧ rest.all (fun m => m.role != "system") = true
      ∧ ∃ w, rest = w ++ [(⟨"user", user⟩ : Message)] := by
  unfold uncapped
  by_cases hany : h.any (fun m => m.role == "system") = true
  · rw [if_pos hany]
    obtain ⟨x, hx, hxs⟩ := List.any_eq_true.mp hany
    cases h with
    | nil => cases hx
    | cons m0 t =>
      have htail : t.all (fun m => m.role != "system") = true := hsys
      refine ⟨m0, t ++ [(⟨"user", user⟩ : Message)], rfl, ?_, ?_, ⟨t, rfl⟩⟩
      · rcases List.mem_cons.mp hx with hx0 | hxt
        · subst hx0; exact eq_of_beq hxs
        · exfalso
          have := List.all_eq_true.mp htail x hxt
          simp only [bne_iff_ne, ne_eq, decide_eq_true_eq] at this
          exact this (eq_of_beq hxs)
      · rw [List.all_append]
        simp only [htail, Bool.true_and, List.all_cons, List.all_nil,
          Bool.and_true]
        decide
  · rw [if_neg hany]
    refine ⟨⟨"system", sys⟩, h ++ [(⟨"user", user⟩ : Message)], rfl, rfl, ?_,
      ⟨h, rfl⟩⟩
    rw [List.all_append]
    have hh : h.all (fun m => m.role != "system") = true := by
      rw [List.all_eq_true]
      intro x hxm
      by_contra hne
      exact hany (List.any_eq_true.mpr ⟨x, hxm, by
        simpa [bne_iff_ne] using hne⟩)
    simp only [hh, Bool.true_and, List.all_cons, List.all_nil, Bool.and_true]
    decide

/-! ## C2: outbound message-list invariants of callLLM -/

/-- C2: for a history whose system message, if any, is at the front, the
outbound list built by `callLLM` has at most one system message, at most
20 entries, still ends with the just-appended user message, and is the
(system) head followed by a suffix of the remaining messages — i.e. only
the oldest non-system messages are evicted, never the head system
message and never the new user message. -/
theorem claim_C2_outbound_invariants (sys user : String) (h : List Message)
    (hsys : (h.drop 1).all (fun m => m.role != "system") = true) :
    ((buildMessages sys user h).filter
        (fun m => m.role == "system")).length ≤ 1
    ∧ (buildMessages sys user h).length ≤ 20
    ∧ (∃ w, buildMessages sys user h = w ++ [(⟨"user", user⟩ : Message)])
    ∧ (∃ m0 k, m0.role = "system"
        ∧ buildMessages sys user h =
            m0 :: ((uncapped sys user h).drop 1).drop k) := by
  obtain ⟨m0, rest, hu, hrole, hall, w, hw⟩ := uncapped_shape sys user h hsys
  have hdrop1 : (uncapped sys user h).drop 1 = rest := by rw [hu]; rfl
  have hfilter : ∀ k, ((m0 :: rest.drop k).filter
      (fun m => m.role == "system")).length ≤ 1 := by
    intro k
    have hnil : (rest.drop k).filter (fun m => m.role == "system") = [] := by
      rw [List.filter_eq_nil_iff]
      intro a ha
      have := List.all_eq_true.mp hall a (List.mem_of_mem_drop ha)
      simp only [bne_iff_ne, ne_eq, decide_eq_true_eq] at this
      simp [this]
    simp [List.filter_cons, hrole, hnil]
  simp only [buildMessages, hu]
  split
  · rename_i hlen
    simp only [List.length_cons] at hlen
    have hidx : (m0 :: rest).length - 19 = (rest.length - 19) + 1 := by
      simp only [List.length_cons]; omega
    have htake : (m0 :: rest).take 1 = [m0] := rfl
    rw [hidx, htake, List.drop_succ_cons]
    have hout : [m0] ++ rest.drop (rest.length - 19) =
        m0 :: rest.drop (rest.length - 19) := rfl
    rw [hout]
    have hwlen : rest.length = w.length + 1 := by simp [hw]
    refine ⟨hfilter _, ?_, ?_, ⟨m0, rest.length - 19, hrole, rfl⟩⟩
    · simp only [List.length_cons, List.length_drop]
      omega
    · have hj : rest.length - 19 = w.length - 18 := by omega
      have hk : w.length - 18 ≤ w.length := by omega
      rw [hj, hw, List.drop_append_of_le_length hk]
      exact ⟨m0 :: w.drop (w.length - 18), rfl⟩
  · rename_i hlen
    simp only [List.length_cons] at hlen
    refine ⟨by simpa using hfilter 0, ?_, ?_, ⟨m0, 0, hrole, rfl⟩⟩
    · simp only [List.length_cons]; omega
    · rw [hw]
      exact ⟨m0 :: w, rfl⟩

/-- Witness for C2 at a concrete 25-message history. -/
theorem claim_C2_witness :
    ((hist25.drop 1).all (fun m => m.role != "system") = true)
    ∧ (((buildMessages helloS helloS hist25).filter
          (fun m => m.role == "system")).length ≤ 1
      ∧ (buildMessages helloS helloS hist25).length ≤ 20
      ∧ (∃ w, buildMessages helloS helloS hist25 =
          w ++ [(⟨"user", helloS⟩ : Message)])
      ∧ (∃ m0 k, m0.role = "system"
          ∧ buildMessages helloS helloS hist25 =
              m0 :: ((uncapped helloS helloS hist25).drop 1).drop k)) :=
  ⟨by decide, claim_C2_outbound_invariants helloS helloS hist25 (by decide)⟩

/-! ## C3: error classification of callLLM -/

/-- C3 (amended): `callLLM` classifies every fetch outcome into a
returned value and never throws: a non-200 status yields the API error
carrying status text and body; a fetch or JSON-parse exception yields the
network-or-parsing error; an HTTP 200 whose `chat?.choices[0].message`
read yields `undefined` without throwing gives the empty-or-malformed
error; but a 200 body on which that read itself throws (no `choices`
field, or an empty `choices` array) is caught and yields the
network-or-parsing error, not the empty-or-malformed one. -/
theorem claim_C3_transport_classification (sys user : String)
    (h : List Message) :
    (∀ st stx b j, st ≠ 200 →
      callLLM sys user h (FetchOutcome.got ⟨st, stx, b, j⟩) =
        CallResult.err ("LLM API Error: " ++ stx ++ " - " ++ b))
    ∧ (∀ m, callLLM sys user h (FetchOutcome.fetchThrow m) =
        CallResult.err ("Network or parsing error during LLM call: " ++ m))
    ∧ (∀ stx b m,
        callLLM sys user h (FetchOutcome.got ⟨200, stx, b, Except.error m⟩) =
          CallResult.err
            ("Network or parsing error during LLM call: " ++ m))
    ∧ (∀ stx b chat, getAssistantMessage chat = Except.ok none →
        callLLM sys user h (FetchOutcome.got ⟨200, stx, b, Except.ok chat⟩) =
          CallResult.err ("LLM response was empty or malformed."))
    ∧ (∀ stx b chat m, getAssistantMessage chat = Except.error m →
        callLLM sys user h (FetchOutcome.got ⟨200, stx, b, Except.ok chat⟩) =
          CallResult.err
            ("Network or parsing error during LLM call: " ++ m)) := by
  refine ⟨?_, ?_, ?_, ?_, ?_⟩
  · intro st stx b j hst
    simp [callLLM, hst]
  · intro m; rfl
  · intro stx b m; rfl
  · intro stx b chat hc
    simp [callLLM, hc]
  · intro stx b chat m hc
    simp [callLLM, hc]

/-- Witness for C3 at concrete outcomes of each class. -/
theorem claim_C3_witness :
    callLLM emptyS emptyS []
        (FetchOutcome.got ⟨500, helloS, helloS, Except.ok ChatJson.nullish⟩) =
      CallResult.err ("LLM API Error: " ++ helloS ++ " - " ++ helloS)
    ∧ callLLM emptyS emptyS []
        (FetchOutcome.got ⟨200, helloS, helloS,
          Except.ok ChatJson.nullish⟩) =
      CallResult.err ("LLM response was empty or malformed.") :=
  ⟨(claim_C3_transport_classification emptyS emptyS []).1 500 helloS helloS
      (Except.ok ChatJson.nullish) (by decide),
   (claim_C3_transport_classification emptyS emptyS []).2.2.2.1 helloS helloS
      ChatJson.nullish rfl⟩

/-- Counterexample to C3 as stated: an HTTP 200 response whose JSON body
lacks `choices[0].message` (here: an empty `choices` array) does NOT
yield the "empty or malformed response" error — the property read throws
and the catch converts it into the network-or-parsing error. -/
theorem claim_C3_counterexample :
    callLLM emptyS emptyS [] emptyChoicesOutcome =
      CallResult.err
        ("Network or parsing error during LLM call: TypeError: cannot read message of undefined")
    ∧ callLLM emptyS emptyS [] emptyChoicesOutcome ≠
      CallResult.err ("LLM response was empty or malformed.") := by
  exact ⟨rfl, by decide⟩

/-! ## C8: the history returned by callLLM -/

/-- C8 (amended): on success `callLLM` returns the freshly built message
list (so the caller's history value is untouched — the source copies it
with `[...history]` before mutating); that returned history ends with the
appended user message, but it does NOT contain the assistant reply,
which `callLLM` never appends. -/
theorem claim_C8_returned_history (sys user : String) (h : List Message)
    (o : FetchOutcome) (m : Message) (H : List Message)
    (hc : callLLM sys user h o = CallResult.ok m H) :
    H = buildMessages sys user h
    ∧ ∃ w, H = w ++ [(⟨"user", user⟩ : Message)] := by
  have hH : H = buildMessages sys user h := by
    cases o with
    | fetchThrow msg => simp [callLLM] at hc
    | got r =>
      simp only [callLLM] at hc
      split at hc
      · split at hc
        · cases hc
        · rename_i chat heq
          split at hc
          · cases hc
          · cases hc; rfl
          · cases hc
      · cases hc
  exact ⟨hH, hH ▸ buildMessages_concat sys user h⟩

/-! ## Helper lemmas about successful phase calls -/

theorem callLLM_succeeds {o : FetchOutcome} {a : String}
    (h : succeedsWith o a) (sys user : String) (hist : List Message) :
    ∃ m : Message, m.content = a
      ∧ callLLM sys user hist o =
          CallResult.ok m (buildMessages sys user hist) := by
  obtain ⟨st, b, m, rest, rfl, hc⟩ := h
  exact ⟨m, hc, by simp [callLLM, getAssistantMessage]⟩

theorem generateSpecification_ok {o : FetchOutcome} {a : String}
    (h : succeedsWith o a) (p : Prompts) (r3 ar : String) :
    generateSpecification p r3 ar o = Except.ok a := by
  obtain ⟨m, hc, hcall⟩ :=
    callLLM_succeeds h (p.specSystem ar) (p.specUser r3) []
  simp [generateSpecification, hcall, hc]

theorem convertCodeToS4_ok {o : FetchOutcome} {a : String}
    (h : succeedsWith o a) (p : Prompts) (r3 sp ar : String) :
    convertCodeToS4 p r3 sp ar o = Except.ok (extractAbap a) := by
  obtain ⟨m, hc, hcall⟩ :=
    callLLM_succeeds h (p.convSystem ar) (p.convUser sp r3) []
  simp [convertCodeToS4, hcall, hc]

theorem reviewAndCorrectCode_ok {o : FetchOutcome} {a : String}
    (h : succeedsWith o a) (p : Prompts) (s4 sp r3 ar : String) :
    reviewAndCorrectCode p s4 sp r3 ar o =
      Except.ok ⟨a, needsCorrectionOf a⟩ := by
  obtain ⟨m, hc, hcall⟩ :=
    callLLM_succeeds h (p.reviewSystem ar) (p.reviewUser r3 s4 sp) []
  simp [reviewAndCorrectCode, hcall, hc]

theorem okReply_succeeds (a : String) : succeedsWith (okReply a) a :=
  ⟨"OK", "", ⟨"assistant", a⟩, [], rfl, rfl⟩

/-! ## Single-step unfoldings of the review loop -/

/-- A loop iteration whose review succeeds with a needs-correction
verdict and whose correction call succeeds: the candidate code becomes
the extracted corrected code and the loop continues. -/
theorem reviewLoop_step (p : Prompts) (env : Nat → FetchOutcome)
    (r3 ar sp : String) (fuel iter : Nat) (s4 : String) (k : Nat)
    (hist : List Message) (trace : List CallRecord) (rrep xrep : String)
    (hrev : succeedsWith (env k) rrep)
    (ht : (needsCorrectionOf rrep).truthy = true)
    (hcorr : succeedsWith (env (k + 1)) xrep) :
    reviewLoop p env r3 ar sp (fuel + 1) iter s4 k hist trace =
      reviewLoop p env r3 ar sp fuel (iter + 1) (extractAbap xrep) (k + 2)
        (hist ++ [reviewEntry iter rrep]
          ++ [corrEntry iter (extractAbap xrep)])
        (trace ++ [reviewRec p ar r3 s4 sp]
          ++ [corrRec p ar r3 sp s4 rrep]) := by
  have hrv := reviewAndCorrectCode_ok hrev p s4 sp r3 ar
  obtain ⟨mc, hmc, hcall⟩ := callLLM_succeeds hcorr (p.corrSystem ar)
    (p.corrUser r3 sp s4 rrep) []
  simp only [reviewLoop, hrv, ht, Bool.not_true]
  rw [if_neg (by decide)]
  simp only [hcall, hmc]

/-- A loop iteration whose review succeeds with a no-correction verdict:
the run terminates as a success with no warning. -/
theorem reviewLoop_stop (p : Prompts) (env : Nat → FetchOutcome)
    (r3 ar sp : String) (fuel iter : Nat) (s4 : String) (k : Nat)
    (hist : List Message) (trace : List CallRecord) (rrep : String)
    (hrev : succeedsWith (env k) rrep)
    (ht : (needsCorrectionOf rrep).truthy = false) :
    reviewLoop p env r3 ar sp (fuel + 1) iter s4 k hist trace =
      (ServiceResult.ok
        { finalS4Code := s4, finalReviewReport := rrep,
          specification := sp, warning := none }
        (hist ++ [reviewEntry iter rrep]),
       trace ++ [reviewRec p ar r3 s4 sp]) := by
  have hrv := reviewAndCorrectCode_ok hrev p s4 sp r3 ar
  simp only [reviewLoop, hrv, ht, Bool.not_false]
  rw [if_pos trivial]

/-- The post-loop final review after the bound is exhausted: a
warning-flagged success carrying the last candidate code. -/
theorem reviewLoop_final (p : Prompts) (env : Nat → FetchOutcome)
    (r3 ar sp : String) (iter : Nat) (s4 : String) (k : Nat)
    (hist : List Message) (trace : List CallRecord) (rrep : String)
    (hrev : succeedsWith (env k) rrep) :
    reviewLoop p env r3 ar sp 0 iter s4 k hist trace =
      (ServiceResult.ok
        { finalS4Code := s4, finalReviewReport := rrep,
          specification := sp, warning := some warnMsg }
        (hist ++ [finalReviewEntry rrep]),
       trace ++ [reviewRec p ar r3 s4 sp]) := by
  have hrv := reviewAndCorrectCode_ok hrev p s4 sp r3 ar
  simp only [reviewLoop, hrv]

/-! ## Loop invariants of the orchestrator -/

/-- The review loop only ever appends assistant-roled entries to the
history it is given. -/
theorem reviewLoop_hist (p : Prompts) (env : Nat → FetchOutcome)
    (r3 ar sp : String) :
    ∀ fuel iter s4 k hist trace,
      ∃ tl, ((reviewLoop p env r3 ar sp fuel iter s4 k hist trace).1).histOf
          = hist ++ tl
        ∧ tl.all (fun m => m.role != "system") = true := by
  intro fuel
  induction fuel with
  | zero =>
    intro iter s4 k hist trace
    cases hrev : reviewAndCorrectCode p s4 sp r3 ar (env k) with
    | error m =>
      simp only [reviewLoop, hrev]
      exact ⟨[⟨"assistant", "Error during conversion: " ++ m⟩], rfl, rfl⟩
    | ok rr =>
      simp only [reviewLoop, hrev]
      exact ⟨[finalReviewEntry rr.reviewReport], rfl, rfl⟩
  | succ fuel ih =>
    intro iter s4 k hist trace
    cases hrev : reviewAndCorrectCode p s4 sp r3 ar (env k) with
    | error m =>
      simp only [reviewLoop, hrev]
      exact ⟨[⟨"assistant", "Error during conversion: " ++ m⟩], rfl, rfl⟩
    | ok rr =>
      simp only [reviewLoop, hrev]
      split
      · exact ⟨[reviewEntry iter rr.reviewReport], rfl, rfl⟩
      · cases hcorr : callLLM (p.corrSystem ar)
            (p.corrUser r3 sp s4 rr.reviewReport) [] (env (k + 1)) with
        | err m =>
          simp only [hcorr]
          refine ⟨[reviewEntry iter rr.reviewReport,
            ⟨"assistant", "Error during conversion: "
              ++ ("Failed to apply corrections in iteration "
                ++ toString (iter + 1) ++ ": " ++ m)⟩], ?_, rfl⟩
          simp [errorReturn, ServiceResult.histOf, List.append_assoc]
        | ok corrected H =>
          simp only [hcorr]
          obtain ⟨tl, htl, hall⟩ := ih (iter + 1)
            (extractAbap corrected.content) (k + 2)
            (hist ++ [reviewEntry iter rr.reviewReport]
              ++ [corrEntry iter (extractAbap corrected.content)])
            (trace ++ [reviewRec p ar r3 s4 sp]
              ++ [corrRec p ar r3 sp s4 rr.reviewReport])
          refine ⟨[reviewEntry iter rr.reviewReport]
            ++ [corrEntry iter (extractAbap corrected.content)] ++ tl,
            ?_, ?_⟩
          · rw [htl]
            simp [List.append_assoc]
          · simp [List.all_append, hall, reviewEntry, corrEntry]

/-- Every record that the review loop appends to the trace transmits a
two-element system/user message list. -/
theorem reviewLoop_trace (p : Prompts) (env : Nat → FetchOutcome)
    (r3 ar sp : String) :
    ∀ fuel iter s4 k hist trace rec,
      rec ∈ (reviewLoop p env r3 ar sp fuel iter s4 k hist trace).2 →
      rec ∈ trace ∨ ∃ s u, rec.messages =
        [(⟨"system", s⟩ : Message), ⟨"user", u⟩] := by
  intro fuel
  induction fuel with
  | zero =>
    intro iter s4 k hist trace rec hrec
    cases hrev : reviewAndCorrectCode p s4 sp r3 ar (env k) with
    | error m =>
      simp only [reviewLoop, hrev] at hrec
      simp only [List.mem_append, List.mem_singleton] at hrec
      rcases hrec with h | h
      · exact Or.inl h
      · exact Or.inr ⟨_, _, by rw [h]; rfl⟩
    | ok rr =>
      simp only [reviewLoop, hrev] at hrec
      simp only [List.mem_append, List.mem_singleton] at hrec
      rcases hrec with h | h
      · exact Or.inl h
      · exact Or.inr ⟨_, _, by rw [h]; rfl⟩
  | succ fuel ih =>
    intro iter s4 k hist trace rec hrec
    cases hrev : reviewAndCorrectCode p s4 sp r3 ar (env k) with
    | error m =>
      simp only [reviewLoop, hrev] at hrec
      simp only [List.mem_append, List.mem_singleton] at hrec
      rcases hrec with h | h
      · exact Or.inl h
      · exact Or.inr ⟨_, _, by rw [h]; rfl⟩
    | ok rr =>
      simp only [reviewLoop, hrev] at hrec
      split at hrec
      · simp only [List.mem_append, List.mem_singleton] at hrec
        rcases hrec with h | h
        · exact Or.inl h
        · exact Or.inr ⟨_, _, by rw [h]; rfl⟩
      · cases hcorr : callLLM (p.corrSystem ar)
            (p.corrUser r3 sp s4 rr.reviewReport) [] (env (k + 1)) with
        | err m =>
          simp only [hcorr] at hrec
          simp only [List.mem_append, List.mem_singleton] at hrec
          rcases hrec with (h | h) | h
          · exact Or.inl h
          · exact Or.inr ⟨_, _, by rw [h]; rfl⟩
          · exact Or.inr ⟨_, _, by rw [h]; rfl⟩
        | ok corrected H =>
          simp only [hcorr] at hrec
          rcases ih _ _ _ _ _ _ hrec with h | h
          · simp only [List.mem_append, List.mem_singleton] at h
            rcases h with (h | h) | h
            · exact Or.inl h
            · exact Or.inr ⟨_, _, by rw [h]; rfl⟩
            · exact Or.inr ⟨_, _, by rw [h]; rfl⟩
          · exact Or.inr h

/-! ## C7: specification-phase transport failure -/

/-- C7: if the Specification-phase transport call fails (any non-200
status, e.g. HTTP 500), `llmService` terminates as a failure with no
result payload, the last entry of the returned history records the
failure message, and no Conversion, Review, or Correction call is
attempted (the trace holds the specification call only). -/
theorem claim_C7_spec_failure (p : Prompts) (hist : List Message)
    (r3 ar : String) (env : Nat → FetchOutcome) (st : Nat) (stx b : String)
    (j : Except String ChatJson) (hst : st ≠ 200)
    (he : env 0 = FetchOutcome.got ⟨st, stx, b, j⟩) :
    (∃ msg H, (llmService p r3 ar hist env).1 = ServiceResult.err msg H
      ∧ H.getLast? = some ⟨"assistant", "Error during conversion: "
          ++ ("Failed to generate specification: "
            ++ ("LLM API Error: " ++ stx ++ " - " ++ b))⟩)
    ∧ (llmService p r3 ar hist env).2.map CallRecord.phase =
        ["specification"] := by
  have hgen : generateSpecification p r3 ar (env 0) =
      Except.error ("Failed to generate specification: "
        ++ ("LLM API Error: " ++ stx ++ " - " ++ b)) := by
    rw [he]
    simp [generateSpecification, callLLM, hst]
  have heq : llmService p r3 ar hist env =
      (errorReturn ("Failed to generate specification: "
          ++ ("LLM API Error: " ++ stx ++ " - " ++ b))
        (hist ++ [startMessage r3 ar]),
       [specRec p ar r3]) := by
    simp only [llmService, hgen]
  rw [heq]
  refine ⟨⟨_, _, rfl, ?_⟩, rfl⟩
  exact List.getLast?_concat _

/-- Witness for C7 at a concrete HTTP-500 environment. -/
theorem claim_C7_witness :
    (∃ msg H, (llmService pTriv helloS emptyS [] env500).1 =
        ServiceResult.err msg H
      ∧ H.getLast? = some ⟨"assistant", "Error during conversion: "
          ++ ("Failed to generate specification: "
            ++ ("LLM API Error: " ++ "Internal Server Error" ++ " - "
              ++ "boom"))⟩)
    ∧ (llmService pTriv helloS emptyS [] env500).2.map CallRecord.phase =
        ["specification"] :=
  claim_C7_spec_failure pTriv [] helloS emptyS env500 500
    "Internal Server Error" "boom" (Except.ok ChatJson.nullish)
    (by decide) rfl

/-! ## C10: the returned history extends the input history -/

/-- C10: whatever the outcome, the history returned by `llmService`
extends the caller's history purely by appended records, none of which
has role `system` (so the single-system invariant of the input is never
violated by the run); the caller's history value itself is untouched —
the source copies it with `[...history]` before pushing. -/
theorem claim_C10_history_extension (p : Prompts) (r3 ar : String)
    (hist : List Message) (env : Nat → FetchOutcome) :
    ∃ tl, ((llmService p r3 ar hist env).1).histOf = hist ++ tl
      ∧ tl.all (fun m => m.role != "system") = true := by
  cases hspec : generateSpecification p r3 ar (env 0) with
  | error m =>
    simp only [llmService, hspec]
    exact ⟨[startMessage r3 ar,
        ⟨"assistant", "Error during conversion: " ++ m⟩],
      by simp [errorReturn, ServiceResult.histOf, List.append_assoc],
      by simp [startMessage]⟩
  | ok sp =>
    cases hconv : convertCodeToS4 p r3 sp ar (env 1) with
    | error m =>
      simp only [llmService, hspec, hconv]
      exact ⟨[startMessage r3 ar, specEntry sp,
          ⟨"assistant", "Error during conversion: " ++ m⟩],
        by simp [errorReturn, ServiceResult.histOf, List.append_assoc],
        by simp [startMessage, specEntry]⟩
    | ok s4 =>
      obtain ⟨tl, htl, hall⟩ := reviewLoop_hist p env r3 ar sp
        MAX_REVIEW_ITERATIONS 0 s4 2
        (hist ++ [startMessage r3 ar] ++ [specEntry sp] ++ [convEntry s4])
        ([specRec p ar r3] ++ [convRec p ar sp r3])
      refine ⟨[startMessage r3 ar] ++ [specEntry sp] ++ [convEntry s4]
        ++ tl, ?_, ?_⟩
      · simp only [llmService, hspec, hconv]
        rw [htl]
        simp [List.append_assoc]
      · simp [List.all_append, hall, startMessage, specEntry, convEntry]

/-- Witness for C10 at a concrete run. -/
theorem claim_C10_witness :
    ∃ tl, ((llmService pTriv helloS emptyS [⟨"user", helloS⟩]
        envNo).1).histOf = [⟨"user", helloS⟩] ++ tl
      ∧ tl.all (fun m => m.role != "system") = true :=
  claim_C10_history_extension pTriv helloS emptyS [⟨"user", helloS⟩] envNo

/-! ## C9: what each phase call transmits -/

/-- C9 (amended): every LLM call of a `llmService` run — Specification,
Conversion, Review, Correction — transmits exactly a two-element message
list, its own freshly built system and user message; the shared History
accumulated by the run is returned to the caller as an audit log but is
never passed to `callLLM` (every phase calls it with the default empty
history), so no transmitted message list contains any History entry. -/
theorem claim_C9_only_own_messages (p : Prompts) (r3 ar : String)
    (hist : List Message) (env : Nat → FetchOutcome) (rec : CallRecord)
    (hrec : rec ∈ (llmService p r3 ar hist env).2) :
    ∃ s u, rec.messages = [(⟨"system", s⟩ : Message), ⟨"user", u⟩] := by
  cases hspec : generateSpecification p r3 ar (env 0) with
  | error m =>
    simp only [llmService, hspec, List.mem_singleton] at hrec
    exact ⟨_, _, by rw [hrec]; rfl⟩
  | ok sp =>
    cases hconv : convertCodeToS4 p r3 sp ar (env 1) with
    | error m =>
      simp only [llmService, hspec, hconv, List.mem_append,
        List.mem_singleton] at hrec
      rcases hrec with h | h
      · exact ⟨_, _, by rw [h]; rfl⟩
      · exact ⟨_, _, by rw [h]; rfl⟩
    | ok s4 =>
      simp only [llmService, hspec, hconv] at hrec
      rcases reviewLoop_trace p env r3 ar sp
          MAX_REVIEW_ITERATIONS 0 s4 2 _ _ rec hrec with h | h
      · simp only [List.mem_append, List.mem_singleton] at h
        rcases h with h | h
        · exact ⟨_, _, by rw [h]; rfl⟩
        · exact ⟨_, _, by rw [h]; rfl⟩
      · exact h

/-- Witness for C9 (amended) at the first record of a concrete run. -/
theorem claim_C9_witness :
    ∃ s u, (((llmService pTriv helloS emptyS [] envNo).2).getD 0
        ⟨emptyS, []⟩).messages = [(⟨"system", s⟩ : Message), ⟨"user", u⟩] :=
  claim_C9_only_own_messages pTriv helloS emptyS [] envNo _ (by decide)

/-- Counterexample to C9 as stated: in a concrete run, the history entry
recording the Specification phase output is part of the returned History
(it was appended before the Conversion and Review calls), yet it occurs
in none of the transmitted message lists — later phases do not send the
accumulated conversational context. -/
theorem claim_C9_counterexample :
    specEntryNo ∈ ((llmService pTriv helloS emptyS [] envNo).1).histOf
    ∧ ((llmService pTriv helloS emptyS [] envNo).2).all
        (fun rec => !(rec.messages.contains specEntryNo)) = true :=
  ⟨by decide, by decide⟩

/-! ## C1: the review loop is bounded (scenario D) -/

/-- C1: in a run whose Specification, Conversion and Correction
transports all succeed and whose every Review call (including the final
one) reports needsCorrection = true, the loop terminates after exactly 3
(`MAX_REVIEW_ITERATIONS`) Correction calls followed by one extra final
Review call, and the run returns a warning-flagged success whose
`finalS4Code` is the code extracted from the 3rd correction reply. -/
theorem claim_C1_loop_bound (p : Prompts) (hist : List Message)
    (r3src ar : String) (env : Nat → FetchOutcome)
    (a0 a1 r1 x1 r2 x2 r3v x3 r4 : String)
    (h0 : succeedsWith (env 0) a0) (h1 : succeedsWith (env 1) a1)
    (h2 : succeedsWith (env 2) r1) (h3 : succeedsWith (env 3) x1)
    (h4 : succeedsWith (env 4) r2) (h5 : succeedsWith (env 5) x2)
    (h6 : succeedsWith (env 6) r3v) (h7 : succeedsWith (env 7) x3)
    (h8 : succeedsWith (env 8) r4)
    (t1 : (needsCorrectionOf r1).truthy = true)
    (t2 : (needsCorrectionOf r2).truthy = true)
    (t3 : (needsCorrectionOf r3v).truthy = true)
    (t4 : (needsCorrectionOf r4).truthy = true) :
    (∃ H, (llmService p r3src ar hist env).1 =
      ServiceResult.ok
        { finalS4Code := extractAbap x3, finalReviewReport := r4,
          specification := a0, warning := some warnMsg } H)
    ∧ (llmService p r3src ar hist env).2.map CallRecord.phase =
      ["specification", "conversion", "review", "correction", "review",
        "correction", "review", "correction", "review"] := by
  have hs := generateSpecification_ok h0 p r3src ar
  have hc := convertCodeToS4_ok h1 p r3src a0 ar
  have hrun : llmService p r3src ar hist env =
      reviewLoop p env r3src ar a0 MAX_REVIEW_ITERATIONS 0
        (extractAbap a1) 2
        (hist ++ [startMessage r3src ar] ++ [specEntry a0]
          ++ [convEntry (extractAbap a1)])
        ([specRec p ar r3src] ++ [convRec p ar a0 r3src]) := by
    simp only [llmService, hs, hc]
  have E := ((((hrun.trans
    (reviewLoop_step p env r3src ar a0 _ _ _ _ _ _ r1 x1 h2 t1 h3)).trans
    (reviewLoop_step p env r3src ar a0 _ _ _ _ _ _ r2 x2 h4 t2 h5)).trans
    (reviewLoop_step p env r3src ar a0 _ _ _ _ _ _ r3v x3 h6 t3 h7)).trans
    (reviewLoop_final p env r3src ar a0 _ _ _ _ _ r4 h8))
  constructor
  · exact ⟨_, by rw [E]⟩
  · rw [E]
    simp [specRec, convRec, reviewRec, corrRec]

/-- Witness for C1 at a concrete all-YES environment. -/
theorem claim_C1_witness :
    (∃ H, (llmService pTriv helloS emptyS [] envAllYes).1 =
      ServiceResult.ok
        { finalS4Code := extractAbap yesReply, finalReviewReport := yesReply,
          specification := yesReply, warning := some warnMsg } H)
    ∧ (llmService pTriv helloS emptyS [] envAllYes).2.map CallRecord.phase =
      ["specification", "conversion", "review", "correction", "review",
        "correction", "review", "correction", "review"] :=
  claim_C1_loop_bound pTriv [] helloS emptyS envAllYes yesReply yesReply
    yesReply yesReply yesReply yesReply yesReply yesReply yesReply
    (okReply_succeeds yesReply) (okReply_succeeds yesReply)
    (okReply_succeeds yesReply) (okReply_succeeds yesReply)
    (okReply_succeeds yesReply) (okReply_succeeds yesReply)
    (okReply_succeeds yesReply) (okReply_succeeds yesReply)
    (okReply_succeeds yesReply)
    (by decide) (by decide) (by decide) (by decide)

/-! ## C6: two corrections then approval (scenario C) -/

/-- C6: in a run whose transports all succeed, whose first two Review
calls report needsCorrection = true and whose third reports false,
exactly two Correction calls occur, the run terminates as a success with
no warning, and `finalS4Code` is the code extracted from the second
correction reply. -/
theorem claim_C6_two_corrections (p : Prompts) (hist : List Message)
    (r3src ar : String) (env : Nat → FetchOutcome)
    (a0 a1 r1 x1 r2 x2 r3v : String)
    (h0 : succeedsWith (env 0) a0) (h1 : succeedsWith (env 1) a1)
    (h2 : succeedsWith (env 2) r1) (h3 : succeedsWith (env 3) x1)
    (h4 : succeedsWith (env 4) r2) (h5 : succeedsWith (env 5) x2)
    (h6 : succeedsWith (env 6) r3v)
    (t1 : (needsCorrectionOf r1).truthy = true)
    (t2 : (needsCorrectionOf r2).truthy = true)
    (t3 : (needsCorrectionOf r3v).truthy = false) :
    (∃ H, (llmService p r3src ar hist env).1 =
      ServiceResult.ok
        { finalS4Code := extractAbap x2, finalReviewReport := r3v,
          specification := a0, warning := none } H)
    ∧ (llmService p r3src ar hist env).2.map CallRecord.phase =
      ["specification", "conversion", "review", "correction", "review",
        "correction", "review"] := by
  have hs := generateSpecification_ok h0 p r3src ar
  have hc := convertCodeToS4_ok h1 p r3src a0 ar
  have hrun : llmService p r3src ar hist env =
      reviewLoop p env r3src ar a0 MAX_REVIEW_ITERATIONS 0
        (extractAbap a1) 2
        (hist ++ [startMessage r3src ar] ++ [specEntry a0]
          ++ [convEntry (extractAbap a1)])
        ([specRec p ar r3src] ++ [convRec p ar a0 r3src]) := by
    simp only [llmService, hs, hc]
  have E := (((hrun.trans
    (reviewLoop_step p env r3src ar a0 _ _ _ _ _ _ r1 x1 h2 t1 h3)).trans
    (reviewLoop_step p env r3src ar a0 _ _ _ _ _ _ r2 x2 h4 t2 h5)).trans
    (reviewLoop_stop p env r3src ar a0 _ _ _ _ _ _ r3v h6 t3))
  constructor
  · exact ⟨_, by rw [E]⟩
  · rw [E]
    simp [specRec, convRec, reviewRec, corrRec]

/-- Witness for C6 at a concrete YES/YES/NO environment. -/
theorem claim_C6_witness :
    (∃ H, (llmService pTriv helloS emptyS [] envYYN).1 =
      ServiceResult.ok
        { finalS4Code := extractAbap yesReply, finalReviewReport := noReply,
          specification := yesReply, warning := none } H)
    ∧ (llmService pTriv helloS emptyS [] envYYN).2.map CallRecord.phase =
      ["specification", "conversion", "review", "correction", "review",
        "correction", "review"] :=
  claim_C6_two_corrections pTriv [] helloS emptyS envYYN yesReply yesReply
    yesReply yesReply yesReply yesReply noReply
    (okReply_succeeds yesReply) (okReply_succeeds yesReply)
    (okReply_succeeds yesReply) (okReply_succeeds yesReply)
    (okReply_succeeds yesReply) (okReply_succeeds yesReply)
    (okReply_succeeds noReply)
    (by decide) (by decide) (by decide)

/-- Witness for C8 at a concrete successful call. -/
theorem claim_C8_witness :
    buildMessages emptyS emptyS [] = buildMessages emptyS emptyS []
    ∧ ∃ w, buildMessages emptyS emptyS [] =
        w ++ [(⟨"user", emptyS⟩ : Message)] :=
  claim_C8_returned_history emptyS emptyS [] (okReply helloS)
    ⟨"assistant", helloS⟩ (buildMessages emptyS emptyS []) (by decide)

/-- Counterexample to C8 as stated: a successful call whose returned
history contains the appended user message but not the assistant reply. -/
theorem claim_C8_counterexample :
    callLLM emptyS emptyS [] (okReply helloS) =
      CallResult.ok ⟨"assistant", helloS⟩
        [⟨"system", emptyS⟩, ⟨"user", emptyS⟩]
    ∧ (⟨"assistant", helloS⟩ : Message) ∉
        ([⟨"system", emptyS⟩, ⟨"user", emptyS⟩] : List Message) := by
  exact ⟨by decide, by decide⟩

end LlmJs
